import Mathlib

/-!
Verification of the jsque query language implementation: a shallow embedding of
the lexer (`jsque/lexer.py`), parser (`jsque/parser.py`), AST dict isomorphism
(`jsque/ast.py`), pipeline compiler (`jsque/ast.py`), evaluator
(`jsque/pipeline.py`) and formatter (`jsque/format.py`), together with theorems
about the testable properties of the system.
-/

set_option maxHeartbeats 1000000

/-! ### The subject data model

Subjects are JSON/YAML-like values: `null`, booleans, integers, strings,
sequences and string-keyed mappings (mapping entries keep insertion order).
-/

inductive JSON where
  | null : JSON
  | bool (b : Bool) : JSON
  | num (n : Int) : JSON
  | str (s : String) : JSON
  | arr (xs : List JSON) : JSON
  | obj (kvs : List (String × JSON)) : JSON
deriving Repr

/-- Python truthiness is irrelevant here, but `hasattr(x, "__getitem__")` is the
capability check both `Index.eval` and `Sub.eval` perform: strings, lists and
dicts have `__getitem__`; `None`, booleans and integers do not. -/
def hasGetitem : JSON → Bool
  | .str _ => true
  | .arr _ => true
  | .obj _ => true
  | _ => false

/-- `hasattr(x, "__iter__")`: strings, lists and dicts are iterable (a dict
iterates over its keys); `None`, booleans and integers are not. -/
def hasIter : JSON → Bool
  | .str _ => true
  | .arr _ => true
  | .obj _ => true
  | _ => false

/-- `hasattr(x, "values")`: only dicts have a `values` view. -/
def hasValues : JSON → Bool
  | .obj _ => true
  | _ => false

/-- Python sequence indexing `xs[n]`: a negative `n` counts from the end; an
out-of-range index raises `IndexError` (modelled as `none`). -/
def pyListIndex {α : Type} (xs : List α) (n : Int) : Option α :=
  let i : Int := if n < 0 then n + xs.length else n
  if h : 0 ≤ i ∧ i < xs.length then some (xs.get ⟨i.toNat, by omega⟩) else none

/-- Python dict lookup `d[k]` on a string-keyed dict: the value at the first
matching key, or `none` (`KeyError`) when the key is missing. -/
def pyDictLookup (k : String) : List (String × JSON) → Option JSON
  | [] => none
  | (k', v) :: rest => if k' = k then some v else pyDictLookup k rest

/-! ### Pipeline components (`jsque/pipeline.py`)

`Pipe` is the closed set of pipeline components: the injections `Index(number)`
and `Sub(key)` and the surjections `MemberMap` and `ChildMap`.
-/

inductive Pipe where
  | index (number : Int) : Pipe
  | sub (key : String) : Pipe
  | memberMap : Pipe
  | childMap : Pipe
deriving Repr, DecidableEq

def Pipe.isInjection : Pipe → Bool
  | .index _ => true
  | .sub _ => true
  | _ => false

def Pipe.isSurjection : Pipe → Bool
  | .memberMap => true
  | .childMap => true
  | _ => false

/-- Evaluation errors (`EvaluationException`).  The base constructors carry the
offending value whose type name and repr appear in the exception message; the
`wrapped` constructor models the re-raise in `Pipeline.eval`, which prefixes the
failing component's class name and the current value's type name. -/
inductive EvalErr where
  | indexNoGetitem (x : JSON) : EvalErr
  | subNoGetitem (x : JSON) : EvalErr
  | memberMapNoIter : EvalErr
  | childMapNoValues : EvalErr
  | wrapped (component : Pipe) (x : JSON) (e : EvalErr) : EvalErr
deriving Repr

/-- `Index.eval`: raises unless `x` has `__getitem__`; otherwise `x[number]`
with every lookup exception swallowed into `None` (out-of-range index on a
sequence, integer key absent from a string-keyed dict, and so on). -/
def Index.eval (number : Int) (x : JSON) : Except EvalErr JSON :=
  if hasGetitem x then
    .ok (match x with
      | .arr xs => (pyListIndex xs number).getD .null
      | .str s => ((pyListIndex s.data number).map fun c => JSON.str (String.singleton c)).getD .null
      | .obj _ => .null
      | _ => .null)
  else .error (.indexNoGetitem x)

/-- `Sub.eval`: raises unless `x` has `__getitem__`; otherwise `x[key]` with
every lookup exception swallowed into `None` (missing key on a dict, `TypeError`
for a string key on a list or a string). -/
def Sub.eval (key : String) (x : JSON) : Except EvalErr JSON :=
  if hasGetitem x then
    .ok (match x with
      | .obj kvs => (pyDictLookup key kvs).getD .null
      | _ => .null)
  else .error (.subNoGetitem x)

/-- `MemberMap.eval`: raises unless `x` has `__iter__`; otherwise yields the
elements of `x` in order (a string yields its one-character substrings, a dict
yields its keys). -/
def MemberMap.eval (x : JSON) : Except EvalErr (List JSON) :=
  match x with
  | .arr xs => .ok xs
  | .str s => .ok (s.data.map fun c => JSON.str (String.singleton c))
  | .obj kvs => .ok (kvs.map fun kv => JSON.str kv.1)
  | _ => .error .memberMapNoIter

/-- `ChildMap.eval`: raises unless `x` has a `values` view; otherwise yields the
dict's values in insertion order. -/
def ChildMap.eval (x : JSON) : Except EvalErr (List JSON) :=
  match x with
  | .obj kvs => .ok (kvs.map fun kv => kv.2)
  | _ => .error .childMapNoValues

/-- Dispatch of `component.eval` for the two injections. -/
def Injection.eval (p : Pipe) (x : JSON) : Except EvalErr JSON :=
  match p with
  | .index n => Index.eval n x
  | .sub k => Sub.eval k x
  | _ => .ok .null

/-- Dispatch of `component.eval` for the two surjections. -/
def Surjection.eval (p : Pipe) (x : JSON) : Except EvalErr (List JSON) :=
  match p with
  | .memberMap => MemberMap.eval x
  | .childMap => ChildMap.eval x
  | _ => .ok []

/-- A `Pipeline` is the ordered sequence of its components. -/
abbrev Pipeline := List Pipe

mutual

/-- `Pipeline.eval`: folds the components left to right over a current value.
An injection replaces the current value; a surjection returns immediately with
the list of results of evaluating the remaining pipeline independently on each
exploded element.  Any `EvaluationException` raised inside an iteration of the
loop (by the component itself, or by a sub-evaluation inside the surjection's
list comprehension) is re-raised wrapped with that component's identity and the
current value. -/
def Pipeline.eval : Pipeline → JSON → Except EvalErr JSON
  | [], x => .ok x
  | c :: rest, x =>
    match c with
    | .index n =>
      match Index.eval n x with
      | .error e => .error (.wrapped (.index n) x e)
      | .ok y => Pipeline.eval rest y
    | .sub k =>
      match Sub.eval k x with
      | .error e => .error (.wrapped (.sub k) x e)
      | .ok y => Pipeline.eval rest y
    | .memberMap =>
      match MemberMap.eval x with
      | .error e => .error (.wrapped .memberMap x e)
      | .ok elems =>
        match Pipeline.evalList rest elems with
        | .error e => .error (.wrapped .memberMap x e)
        | .ok rs => .ok (.arr rs)
    | .childMap =>
      match ChildMap.eval x with
      | .error e => .error (.wrapped .childMap x e)
      | .ok elems =>
        match Pipeline.evalList rest elems with
        | .error e => .error (.wrapped .childMap x e)
        | .ok rs => .ok (.arr rs)
termination_by p _ => (p.length, 0)

/-- The list comprehension `[right_pipeline.eval(y) for y in component.eval(x)]`:
evaluates the remaining pipeline on each exploded element in order, propagating
the first exception. -/
def Pipeline.evalList : Pipeline → List JSON → Except EvalErr (List JSON)
  | _, [] => .ok []
  | rest, y :: ys =>
    match Pipeline.eval rest y with
    | .error e => .error e
    | .ok r =>
      match Pipeline.evalList rest ys with
      | .error e => .error e
      | .ok rs => .ok (r :: rs)
termination_by p l => (p.length, l.length + 1)

end

/-! ### Lexer (`jsque/lexer.py`) -/

/-- The token kinds of jsque (`TokenType`). -/
inductive TokenType where
  | identifier : TokenType
  | wild : TokenType
  | sub_op : TokenType
  | lbrac : TokenType
  | rbrac : TokenType
  | index : TokenType
  | root : TokenType
deriving Repr, DecidableEq

/-- A token is its kind together with the stored text (`Token`). -/
structure Token where
  type : TokenType
  value : String
deriving Repr, DecidableEq

def Token.root : Token := ⟨.root, "@"⟩

def Token.identifier (v : String) : Token := ⟨.identifier, v⟩

def Token.sub_op : Token := ⟨.sub_op, "."⟩

def Token.wildcard : Token := ⟨.wild, "*"⟩

def Token.left_bracket : Token := ⟨.lbrac, "["⟩

def Token.right_bracket : Token := ⟨.rbrac, "]"⟩

def Token.index (v : String) : Token := ⟨.index, v⟩

/-- `string.whitespace`. -/
def string_whitespace : List Char := [' ', '\t', '\n', '\r', Char.ofNat 11, Char.ofNat 12]

/-- `string.ascii_letters`. -/
def ascii_letters : List Char :=
  "abcdefghijklmnopqrstuvwxyzABCDEFGHIJKLMNOPQRSTUVWXYZ".data

/-- `string.digits`. -/
def string_digits : List Char := "0123456789".data

/-- `IDENTIFIER_TERMINATORS = [".", "["] + list(string.whitespace)`. -/
def IDENTIFIER_TERMINATORS : List Char := ['.', '['] ++ string_whitespace

/-- `string.digits + "-"`, the character class of an index token. -/
def digits_dash : List Char := string_digits ++ ['-']

/-- `next_identifier`: consume characters until a terminator (exclusive).
The source scans `source` from `start_idx`; here the argument is the suffix of
the source starting at that index. -/
def next_identifier : List Char → List Char
  | [] => []
  | c :: rest =>
    if c ∈ IDENTIFIER_TERMINATORS then [] else c :: next_identifier rest

/-- `next_index`: greedily consume digits and `-` characters. -/
def next_index : List Char → List Char
  | [] => []
  | c :: rest =>
    if c ∈ digits_dash then c :: next_index rest else []

/-- A lexical error (`LexerException`): the message names only the unexpected
character (`"Unexpected character encountered during tokenize: %s" % char_i`). -/
inductive LexErr where
  | unexpectedChar (c : Char) : LexErr
deriving Repr, DecidableEq

/-- `tokenize`: one left-to-right pass dispatching on the current character.
In the identifier branch the source calls `next_identifier(source, idx)` where
`source[idx] = c`; since `c` is a letter or `_` in that branch it is not a
terminator, so that call returns `c` followed by `next_identifier` of the rest,
which is how the branch is written here (and likewise for the index branch,
where `c` is a digit or `-`).  The source then advances `idx` by the token's
length. -/
def tokenize : List Char → Except LexErr (List Token)
  | [] => .ok []
  | c :: rest =>
    if c ∈ string_whitespace then tokenize rest
    else if c = '@' then (Token.root :: ·) <$> tokenize rest
    else if c ∈ ascii_letters ∨ c = '_' then
      let id_tail := next_identifier rest
      (Token.identifier (String.mk (c :: id_tail)) :: ·) <$> tokenize (rest.drop id_tail.length)
    else if c = '.' then (Token.sub_op :: ·) <$> tokenize rest
    else if c = '[' then (Token.left_bracket :: ·) <$> tokenize rest
    else if c = ']' then (Token.right_bracket :: ·) <$> tokenize rest
    else if c = '*' then (Token.wildcard :: ·) <$> tokenize rest
    else if c ∈ digits_dash then
      let num_tail := next_index rest
      (Token.index (String.mk (c :: num_tail)) :: ·) <$> tokenize (rest.drop num_tail.length)
    else .error (.unexpectedChar c)
termination_by cs => cs.length
decreasing_by
  all_goals simp [List.length_drop]
  all_goals omega

/-! ### Query AST (`jsque/ast.py`)

The seven registered `QueryTerm` classes form a closed set of variants: the
leaves `Root`, `Index(number)`, `Identifier(key)` and the operators
`IndexExpr(sequence, item)`, `MemberMapExpr(sequence)`, `SubExpr(parent, child)`
and `ChildMapExpr(parent)`.  The operator constructors take arbitrary terms as
operands (the `item`/`child` argument is checked at construction; see
`mkIndexExpr`/`mkSubExpr`). -/

inductive QueryTerm where
  | root : QueryTerm
  | index (number : Int) : QueryTerm
  | identifier (key : String) : QueryTerm
  | idx_op (sequence : QueryTerm) (item : QueryTerm) : QueryTerm
  | mmap_op (sequence : QueryTerm) : QueryTerm
  | sub_op (parent : QueryTerm) (child : QueryTerm) : QueryTerm
  | cmap_op (parent : QueryTerm) : QueryTerm
deriving Repr, DecidableEq

/-- Scalar `value` payload of a term: an integer (on `index`) or a string (on
`identifier`). -/
inductive Value where
  | int (n : Int) : Value
  | str (s : String) : Value
deriving Repr, DecidableEq

/-- Python truthiness of a scalar value: `0` and `""` are falsy. -/
def Value.pyTruthy : Value → Bool
  | .int n => n ≠ 0
  | .str s => s ≠ ""

/-- Errors raised while building terms (`ASTException` for unknown dict types
and for `to_pipeline` on a non-expression term, `IndexError`/`AttributeError`
from the `IndexExpr`/`SubExpr` constructors, `TypeError` for a constructor
called with the wrong number of arguments). -/
inductive ASTErr where
  | unrecognizedType (ty : String) : ASTErr
  | typeError : ASTErr
  | badIndexArgument : ASTErr
  | badSubArgument : ASTErr
  | unexpectedTerm : ASTErr
deriving Repr, DecidableEq

/-- `IndexExpr.__init__`: requires `item` to be an `Index` leaf
(`IndexError` otherwise). -/
def mkIndexExpr (sequence item : QueryTerm) : Except ASTErr QueryTerm :=
  match item with
  | .index _ => .ok (.idx_op sequence item)
  | _ => .error .badIndexArgument

/-- `SubExpr.__init__`: requires `child` to be an `Identifier` leaf
(`AttributeError` otherwise). -/
def mkSubExpr (parent child : QueryTerm) : Except ASTErr QueryTerm :=
  match child with
  | .identifier _ => .ok (.sub_op parent child)
  | _ => .error .badSubArgument

/-- The interchange record `{type, value?, children?}` produced and consumed by
the dict isomorphism.  A missing `children` key and an empty `children` list are
identified (both are falsy in the source). -/
inductive TreeDict where
  | mk (type : String) (value : Option Value) (children : List TreeDict) : TreeDict
deriving Repr

def TreeDict.type : TreeDict → String
  | .mk ty _ _ => ty

def TreeDict.value : TreeDict → Option Value
  | .mk _ v _ => v

def TreeDict.children : TreeDict → List TreeDict
  | .mk _ _ cs => cs

/-- The keys of `QueryTerm._registry`. -/
def registry : List String :=
  ["root", "index", "identifier", "idx_op", "mmap_op", "sub_op", "cmap_op"]

/-- The `type` tag stored on each term. -/
def QueryTerm.type : QueryTerm → String
  | .root => "root"
  | .index _ => "index"
  | .identifier _ => "identifier"
  | .idx_op _ _ => "idx_op"
  | .mmap_op _ => "mmap_op"
  | .sub_op _ _ => "sub_op"
  | .cmap_op _ => "cmap_op"

/-- `QueryTerm.dict`: emits `value` only when it `is not None` (a definedness
check, not a truthiness check) and `children` only when non-empty, recursing on
the children. -/
def QueryTerm.dict : QueryTerm → TreeDict
  | .root => .mk "root" none []
  | .index n => .mk "index" (some (.int n)) []
  | .identifier k => .mk "identifier" (some (.str k)) []
  | .idx_op s i => .mk "idx_op" none [s.dict, i.dict]
  | .mmap_op s => .mk "mmap_op" none [s.dict]
  | .sub_op p c => .mk "sub_op" none [p.dict, c.dict]
  | .cmap_op p => .mk "cmap_op" none [p.dict]

/-- `_root_cls()`: the registered constructor called with no arguments.  Only
`Root` accepts zero arguments; every other constructor raises `TypeError` for a
missing required argument. -/
def callCtor0 : String → Except ASTErr QueryTerm
  | "root" => .ok .root
  | _ => .error .typeError

/-- `_root_cls(value)`: the registered constructor called with the scalar value
as its single argument.  `Index` stores an integer and `Identifier` a string
(their annotated argument types); `Root` raises `TypeError` (too many
arguments), the operator constructors receive a scalar where a term is expected
and fail. -/
def callCtor1 : String → Value → Except ASTErr QueryTerm
  | "index", .int n => .ok (.index n)
  | "identifier", .str s => .ok (.identifier s)
  | _, _ => .error .typeError

/-- `_root_cls(*children)`: the registered constructor called with the
reconstructed children as positional arguments.  The operator constructors
require their exact arity (`TypeError` otherwise) and `IndexExpr`/`SubExpr`
validate the second child's class; the leaf constructors called with terms
instead of their scalar raise. -/
def callCtorChildren : String → List QueryTerm → Except ASTErr QueryTerm
  | "idx_op", [s, i] => mkIndexExpr s i
  | "mmap_op", [s] => .ok (.mmap_op s)
  | "sub_op", [p, c] => mkSubExpr p c
  | "cmap_op", [p] => .ok (.cmap_op p)
  | _, _ => .error .typeError

/-- `_root_cls(value, children)`: both a truthy `value` and truthy `children`
in the dict.  `IndexExpr(value, children)`/`SubExpr(value, children)` fail their
second-argument class check (the children list is not an `Index`/`Identifier`);
every other constructor raises `TypeError` for a surplus argument. -/
def callCtorValueChildren : String → Value → List QueryTerm → Except ASTErr QueryTerm
  | "idx_op", _, _ => .error .badIndexArgument
  | "sub_op", _, _ => .error .badSubArgument
  | _, _, _ => .error .typeError

mutual

/-- `QueryTerm.fromdict`: looks the `type` tag up in the registry
(`ASTException` when unknown), reconstructs the children first, and dispatches
on the truthiness (not definedness) of `children` and `value`:
`if children := d.get("children")` and `if value := d.get("value")`. -/
def QueryTerm.fromdict : TreeDict → Except ASTErr QueryTerm
  | .mk ty value children =>
    if ty ∈ registry then
      match children with
      | [] =>
        match value with
        | some v => if v.pyTruthy then callCtor1 ty v else callCtor0 ty
        | none => callCtor0 ty
      | c :: cs =>
        match QueryTerm.fromdictList (c :: cs) with
        | .error e => .error e
        | .ok childTerms =>
          match value with
          | some v =>
            if v.pyTruthy then callCtorValueChildren ty v childTerms
            else callCtorChildren ty childTerms
          | none => callCtorChildren ty childTerms
    else .error (.unrecognizedType ty)

/-- `list(map(lambda _d: cls.fromdict(_d), children))`. -/
def QueryTerm.fromdictList : List TreeDict → Except ASTErr (List QueryTerm)
  | [] => .ok []
  | d :: ds =>
    match QueryTerm.fromdict d with
    | .error e => .error e
    | .ok c =>
      match QueryTerm.fromdictList ds with
      | .error e => .error e
      | .ok cs => .ok (c :: cs)

end

/-- The `.number` attribute of an `Index` leaf.  Other tags have no such
attribute (`AttributeError` in the source); the placeholder `0` is never
reached on terms built by the parser or the checked constructors. -/
def QueryTerm.itemNumber : QueryTerm → Int
  | .index n => n
  | _ => 0

/-- The `.key` attribute of an `Identifier` leaf; same caveat as
`QueryTerm.itemNumber`. -/
def QueryTerm.childKey : QueryTerm → String
  | .identifier k => k
  | _ => ""

/-- `to_pipeline`: compiles a query expression to its pipeline, concatenating
each operator's component on the right of its operand's pipeline; a leaf other
than `Root` raises `ASTException("unexpected term")`. -/
def to_pipeline : QueryTerm → Except ASTErr Pipeline
  | .root => .ok []
  | .idx_op s i =>
    match to_pipeline s with
    | .error e => .error e
    | .ok p => .ok (p ++ [.index i.itemNumber])
  | .mmap_op s =>
    match to_pipeline s with
    | .error e => .error e
    | .ok p => .ok (p ++ [.memberMap])
  | .sub_op pa c =>
    match to_pipeline pa with
    | .error e => .error e
    | .ok p => .ok (p ++ [.sub c.childKey])
  | .cmap_op pa =>
    match to_pipeline pa with
    | .error e => .error e
    | .ok p => .ok (p ++ [.childMap])
  | _ => .error .unexpectedTerm

/-! ### Decimal rendering and parsing

`format_jsque_expression` renders an index with Python `str(int)` (an optional
`-` sign followed by decimal digits); the parser reads it back with `int(str)`.
-/

/-- The decimal digit characters, indexed by value. -/
def decDigit (d : Nat) : Char :=
  match d with
  | 0 => '0'
  | 1 => '1'
  | 2 => '2'
  | 3 => '3'
  | 4 => '4'
  | 5 => '5'
  | 6 => '6'
  | 7 => '7'
  | 8 => '8'
  | _ => '9'

/-- The decimal digits of a natural number, most significant first. -/
def natChars (n : Nat) : List Char :=
  if n < 10 then [decDigit n]
  else natChars (n / 10) ++ [decDigit (n % 10)]
termination_by n
decreasing_by exact Nat.div_lt_self (by omega) (by omega)

/-- Python `str` on an `int`: `-` sign for negatives, then decimal digits. -/
def pyStrInt (n : Int) : String :=
  if n < 0 then String.mk ('-' :: natChars (-n).toNat) else String.mk (natChars n.toNat)

/-- The numeric value of a digit string, as accumulated by positional reading. -/
def digitsVal (ds : List Char) : Nat :=
  ds.foldl (fun a c => 10 * a + (c.toNat - 48)) 0

/-- Python `int()` applied to a string, restricted to the shapes an `Index`
token can take (digits and `-` characters): an optional leading `-` followed by
one or more digits parses to the signed value, anything else raises
`ValueError` (modelled as `none`).  The whitespace/underscore/`+` tolerance of
the full builtin is unreachable from lexer output and not modelled. -/
def pyInt (s : String) : Option Int :=
  match s.data with
  | [] => none
  | c :: ds =>
    if c = '-' then
      if ds ≠ [] ∧ ds.all (· ∈ string_digits) then some (-(digitsVal ds : Int)) else none
    else
      if (c :: ds).all (· ∈ string_digits) then some ((digitsVal (c :: ds) : Int)) else none

/-! ### Formatter (`jsque/format.py`) -/

/-- `format_jsque_expression`: renders a term to canonical surface syntax.  All
seven variants are handled (`Root`, the four operators, and the two leaves,
which the source renders as a bare number/key). -/
def format_jsque_expression : QueryTerm → String
  | .root => "@"
  | .index n => pyStrInt n
  | .idx_op s i => format_jsque_expression s ++ "[" ++ pyStrInt i.itemNumber ++ "]"
  | .mmap_op s => format_jsque_expression s ++ "[*]"
  | .sub_op p c => format_jsque_expression p ++ "." ++ c.childKey
  | .cmap_op p => format_jsque_expression p ++ ".*"
  | .identifier k => k

/-! ### Parser (`jsque/parser.py`) -/

/-- Parser failures (each a distinct `raise`/failed `assert` in the source),
plus the propagated `LexerException` from `tokenize`. -/
inductive ParseErr where
  | lex (e : LexErr) : ParseErr
  | noTokens : ParseErr
  | noRoot : ParseErr
  | incompleteIndexExpr : ParseErr
  | badIndexArgument (t : TokenType) : ParseErr
  | expectedRightBracket : ParseErr
  | incompleteSubExpr : ParseErr
  | badSubArgument (t : TokenType) : ParseErr
  | unexpectedToken (t : Token) : ParseErr
  | valueError (s : String) : ParseErr
deriving Repr, DecidableEq

/-- The parser's accumulator loop: pops an operator token and wraps the
accumulated left operand.  A left bracket needs two more tokens (the argument
and the closing bracket), a dot needs one. -/
def parseOps : QueryTerm → List Token → Except ParseErr QueryTerm
  | expr, [] => .ok expr
  | expr, op :: rest =>
    match op.type with
    | .lbrac =>
      match rest with
      | inner :: rb :: rest3 =>
        match inner.type with
        | .index =>
          match pyInt inner.value with
          | some n =>
            if rb.type = .rbrac then parseOps (.idx_op expr (.index n)) rest3
            else .error .expectedRightBracket
          | none => .error (.valueError inner.value)
        | .wild =>
          if rb.type = .rbrac then parseOps (.mmap_op expr) rest3
          else .error .expectedRightBracket
        | other => .error (.badIndexArgument other)
      | _ => .error .incompleteIndexExpr
    | .sub_op =>
      match rest with
      | inner :: rest2 =>
        match inner.type with
        | .identifier => parseOps (.sub_op expr (.identifier inner.value)) rest2
        | .wild => parseOps (.cmap_op expr) rest2
        | other => .error (.badSubArgument other)
      | [] => .error .incompleteSubExpr
    | _ => .error (.unexpectedToken op)

/-- `parse_jsque_expression`: tokenize, require a leading root token, then fold
the operations left-associatively over a `Root` accumulator. -/
def parse_jsque_expression (source : String) : Except ParseErr QueryTerm :=
  match tokenize source.data with
  | .error e => .error (.lex e)
  | .ok [] => .error .noTokens
  | .ok (t :: rest) =>
    if t.type = .root then parseOps .root rest else .error .noRoot

/-! ### Definitions for the format/parse round-trip -/

/-- A key matching the surface grammar of identifiers,
`ident = (ALPHA/"_") *(any char except "." "[" whitespace)`: non-empty, first
character a letter or underscore, and no later character an identifier
terminator. -/
def goodKey (k : String) : Bool :=
  match k.data with
  | [] => false
  | c :: cs =>
    (ascii_letters.contains c || c == '_')
      && cs.all (fun x => !(IDENTIFIER_TERMINATORS.contains x))

/-- Well-formed query expressions whose identifier keys match the surface
grammar: recursively composed from the four operators over a `root` anchor,
with `index` leaves in index position and grammar-conforming `identifier`
leaves in key position. -/
def wfC4 : QueryTerm → Bool
  | .root => true
  | .idx_op s (.index _) => wfC4 s
  | .sub_op p (.identifier k) => wfC4 p && goodKey k
  | .mmap_op s => wfC4 s
  | .cmap_op p => wfC4 p
  | _ => false

/-- The token sequence the formatter's output lexes to, after the leading root
token. -/
def opsOf : QueryTerm → List Token
  | .idx_op s i =>
    opsOf s ++ [Token.left_bracket, Token.index (pyStrInt i.itemNumber), Token.right_bracket]
  | .mmap_op s => opsOf s ++ [Token.left_bracket, Token.wildcard, Token.right_bracket]
  | .sub_op p c => opsOf p ++ [Token.sub_op, Token.identifier c.childKey]
  | .cmap_op p => opsOf p ++ [Token.sub_op, Token.wildcard]
  | _ => []

/-- Replace the `root` anchor of a term by another expression: `graft e t` is
the tree the parser accumulates when it starts from `e` and consumes the
operation tokens of `t`. -/
def graft (e : QueryTerm) : QueryTerm → QueryTerm
  | .root => e
  | .idx_op s i => .idx_op (graft e s) i
  | .mmap_op s => .mmap_op (graft e s)
  | .sub_op p c => .sub_op (graft e p) c
  | .cmap_op p => .cmap_op (graft e p)
  | .index n => .index n
  | .identifier k => .identifier k

/-- Whether a computation raised: `true` exactly on `error`. -/
def Except.isError {ε α : Type} : Except ε α → Bool
  | .error _ => true
  | .ok _ => false

/-! ### Claim theorems -/

/-- Claim C1.  The claim asserts that every well-formed AST survives the dict
round-trip, in particular a falsy scalar such as index `0` or an empty
identifier key.  The code writes such a value into the dict (`dict` checks
`is not None`), but `fromdict` re-reads it with a truthiness guard
(`if value := d.get("value")`), so the falsy value is dropped and the leaf
constructor is called without its required argument: the round-trip raises
`TypeError` on `IndexExpr(Root(), Index(0))` and on
`SubExpr(Root(), Identifier(""))`, while the same shape with a truthy value
round-trips. -/
theorem C1_falsy_scalar_dict_roundtrip :
    QueryTerm.fromdict (QueryTerm.dict (.idx_op .root (.index 0))) = .error .typeError
    ∧ QueryTerm.fromdict (QueryTerm.dict (.sub_op .root (.identifier ""))) = .error .typeError
    ∧ QueryTerm.fromdict (QueryTerm.dict (.idx_op .root (.index 1)))
        = .ok (.idx_op .root (.index 1)) := by
  refine ⟨?_, ?_, ?_⟩ <;>
    simp +decide [QueryTerm.dict, QueryTerm.fromdict, QueryTerm.fromdictList, registry,
      callCtor0, callCtor1, callCtorChildren, mkIndexExpr, mkSubExpr, Value.pyTruthy]

/-- Claim C7: the lexer literal equations, and whitespace between tokens being
skipped. -/
theorem C7_lexer_literals :
    tokenize "@".data = .ok [Token.root]
    ∧ tokenize "@.*".data = .ok [Token.root, Token.sub_op, Token.wildcard]
    ∧ tokenize "@[*].x.y".data
        = .ok [Token.root, Token.left_bracket, Token.wildcard, Token.right_bracket,
               Token.sub_op, Token.identifier "x", Token.sub_op, Token.identifier "y"]
    ∧ tokenize "   @ . * ".data = tokenize "@.*".data := by
  refine ⟨?_, ?_, ?_, ?_⟩ <;> simp +decide [tokenize, next_identifier, next_index]

/-- Claim C8, counterexample.  The claim quantifies over every source string
containing a character outside the recognized classes and asserts a
`LexicalError` naming the character and its position.  But `"a#"` contains `#`
and tokenizes successfully (the identifier consumer swallows any character that
is not `.`, `[` or whitespace); and the errors for `"#"` and `" #"` — the same
bad character at positions 0 and 1 — are identical, so the error cannot name
the position (the message only interpolates the character). -/
theorem C8_unrecognized_char_counterexample :
    tokenize "a#".data = .ok [Token.identifier "a#"]
    ∧ tokenize "#".data = .error (.unexpectedChar '#')
    ∧ tokenize " #".data = .error (.unexpectedChar '#') := by
  refine ⟨?_, ?_, ?_⟩ <;> simp +decide [tokenize, next_identifier]

/-- Claim C8, amended: when the character at the current dispatch position is
outside every recognized class, `tokenize` fails with a `LexicalError` naming
that character (the position is not part of the error, and characters outside
the classes are consumed silently when they occur inside an identifier). -/
theorem C8_lexical_error_on_unrecognized (c : Char) (cs : List Char)
    (h1 : c ∉ string_whitespace) (h2 : c ≠ '@')
    (h3 : c ∉ ascii_letters) (h4 : c ≠ '_')
    (h5 : c ≠ '.') (h6 : c ≠ '[') (h7 : c ≠ ']') (h8 : c ≠ '*')
    (h9 : c ∉ digits_dash) :
    tokenize (c :: cs) = .error (.unexpectedChar c) := by
  simp only [tokenize]
  simp [h1, h2, h3, h4, h5, h6, h7, h8, h9]

/-- Witness for `C8_lexical_error_on_unrecognized` at `c = '#'`. -/
theorem C8_lexical_error_on_unrecognized_witness :
    tokenize ['#'] = .error (.unexpectedChar '#') :=
  C8_lexical_error_on_unrecognized '#' [] (by decide) (by decide) (by decide) (by decide)
    (by decide) (by decide) (by decide) (by decide) (by decide)

/-- Claim C10: on any value that has `__getitem__` at all, `Index.eval` and
`Sub.eval` never raise — the lookup's own exceptions are swallowed into the
absent marker.  In particular an integer index applied to a (string-keyed)
mapping and a string key applied to a list or a string yield `None`. -/
theorem C10_lookup_never_raises (x : JSON) (n : Int) (k : String)
    (h : hasGetitem x = true) :
    (Index.eval n x).isOk = true ∧ (Sub.eval k x).isOk = true
    ∧ (∀ kvs, x = .obj kvs → Index.eval n x = .ok .null)
    ∧ (∀ xs, x = .arr xs → Sub.eval k x = .ok .null)
    ∧ (∀ s, x = .str s → Sub.eval k x = .ok .null) := by
  cases x <;> simp_all [Index.eval, Sub.eval, hasGetitem, Except.isOk, Except.toBool]

/-- Witness for `C10_lookup_never_raises`: an out-of-range index on a list and
a string key on a list. -/
theorem C10_lookup_never_raises_witness :
    (Index.eval 5 (.arr [.num 1])).isOk = true
    ∧ Sub.eval "a" (.arr [.num 1]) = .ok .null :=
  ⟨(C10_lookup_never_raises (.arr [.num 1]) 5 "a" rfl).1,
   (C10_lookup_never_raises (.arr [.num 1]) 5 "a" rfl).2.2.2.1 [.num 1] rfl⟩

/-- Claim C6: evaluating `"@.*[1]"` — compiled to a `ChildMap` over the
mapping's values in insertion order followed by `Index(1)` per element — on the
given subject yields `[1, 2, "b", null]` (the string contributes its second
character, the empty list the absent marker). -/
theorem C6_childmap_index_literal :
    parse_jsque_expression "@.*[1]" = .ok (.idx_op (.cmap_op .root) (.index 1))
    ∧ to_pipeline (.idx_op (.cmap_op .root) (.index 1)) = .ok [.childMap, .index 1]
    ∧ Pipeline.eval [.childMap, .index 1]
        (.obj [("first", .arr [.num 0, .num 1]), ("second", .arr [.num 2, .num 2]),
               ("third", .str "ab"), ("fourth", .arr [])])
        = .ok (.arr [.num 1, .num 2, .str "b", .null]) := by
  refine ⟨?_, rfl, ?_⟩
  · simp +decide [parse_jsque_expression, tokenize, next_identifier, next_index, parseOps,
      pyInt, digitsVal, Token.root, Token.sub_op, Token.wildcard, Token.left_bracket,
      Token.right_bracket, Token.index, Token.identifier]
  · simp +decide [Pipeline.eval, Pipeline.evalList, ChildMap.eval, Index.eval, pyListIndex,
      hasGetitem]

/-! ### Helper lemmas for the evaluator claims -/

theorem pyListIndex_nonneg {α : Type} (xs : List α) (n : Int) (h : 0 ≤ n) :
    pyListIndex xs n = xs[n.toNat]? := by
  unfold pyListIndex
  simp only [show ¬n < 0 by omega, if_false]
  by_cases hlt : n < (xs.length : Int)
  · rw [dif_pos ⟨h, hlt⟩, List.getElem?_eq_getElem (by omega)]
    simp [List.get_eq_getElem]
  · rw [dif_neg (by omega), eq_comm, List.getElem?_eq_none_iff]
    omega

theorem pyListIndex_neg {α : Type} (xs : List α) (n : Int) (h : n < 0)
    (h2 : -n ≤ (xs.length : Int)) :
    pyListIndex xs n = xs[(n + xs.length).toNat]? := by
  unfold pyListIndex
  simp only [h, if_true]
  rw [dif_pos ⟨by omega, by omega⟩, List.getElem?_eq_getElem (by omega)]
  simp [List.get_eq_getElem]

theorem pyListIndex_neg_oob {α : Type} (xs : List α) (n : Int) (h : n < 0)
    (h2 : (xs.length : Int) < -n) :
    pyListIndex xs n = none := by
  unfold pyListIndex
  simp only [h, if_true]
  rw [dif_neg (by omega)]

/-- Claim C3: a pipeline `Index(n)` step fails exactly when the current value
lacks item lookup, and otherwise returns element `n` of a sequence — counting
from the end for negative `n` — or the absent marker when `n` is out of range
(or when the value is a string-keyed mapping, which holds no integer key); a
`Sub(key)` step fails exactly when the current value lacks item lookup, and on
a mapping returns the value at `key`, or the absent marker when the key is
missing. -/
theorem C3_index_sub_step_semantics (x : JSON) (n : Int) (k : String)
    (xs : List JSON) (kvs : List (String × JSON)) :
    ((Index.eval n x).isError = true ↔ hasGetitem x = false)
    ∧ ((Sub.eval k x).isError = true ↔ hasGetitem x = false)
    ∧ (0 ≤ n → Index.eval n (.arr xs) = .ok ((xs[n.toNat]?).getD .null))
    ∧ (n < 0 → -n ≤ (xs.length : Int) →
        Index.eval n (.arr xs) = .ok ((xs[(n + xs.length).toNat]?).getD .null))
    ∧ (n < 0 → (xs.length : Int) < -n → Index.eval n (.arr xs) = .ok .null)
    ∧ Index.eval n (.obj kvs) = .ok .null
    ∧ Sub.eval k (.obj kvs) = .ok ((pyDictLookup k kvs).getD .null) := by
  refine ⟨?_, ?_, ?_, ?_, ?_, rfl, rfl⟩
  · cases x <;> simp [Index.eval, hasGetitem, Except.isError, Except.toBool]
  · cases x <;> simp [Sub.eval, hasGetitem, Except.isError, Except.toBool]
  · intro hn
    show Except.ok ((pyListIndex xs n).getD .null) = _
    rw [pyListIndex_nonneg xs n hn]
  · intro hn h2
    show Except.ok ((pyListIndex xs n).getD .null) = _
    rw [pyListIndex_neg xs n hn h2]
  · intro hn h2
    show Except.ok ((pyListIndex xs n).getD .null) = _
    rw [pyListIndex_neg_oob xs n hn h2]
    rfl

/-- Witness for `C3_index_sub_step_semantics`: a capability failure on an
integer, a negative in-range index, and a present key. -/
theorem C3_index_sub_step_semantics_witness :
    (Index.eval (-1) (.num 3)).isError = true
    ∧ Index.eval (-1) (.arr [.num 7, .num 8]) = .ok (.num 8)
    ∧ Sub.eval "a" (.obj [("a", .num 5)]) = .ok (.num 5) := by
  have h := C3_index_sub_step_semantics (.num 3) (-1) "a" [.num 7, .num 8] [("a", .num 5)]
  refine ⟨h.1.mpr rfl, ?_, ?_⟩
  · have h2 := h.2.2.2.1 (by decide) (by decide)
    simpa using h2
  · have h2 := h.2.2.2.2.2.2
    simpa [pyDictLookup] using h2

/-- Every pipeline step applied to the absent marker `null` fails: `null` has
no `__getitem__`, no `__iter__` and no `values` view. -/
theorem eval_cons_on_null_isError (q : Pipe) (rest : Pipeline) :
    (Pipeline.eval (q :: rest) .null).isError = true := by
  cases q <;>
    simp [Pipeline.eval, Index.eval, Sub.eval, MemberMap.eval, ChildMap.eval, hasGetitem,
      Except.isError, Except.toBool]

/-- Claim C2, amended: an absent key or out-of-range index is a distinct
non-error miss — the injection step succeeds with the `null` marker as the new
current value, and when it is the last step that marker is the final result;
but the marker does not survive further lookup steps: any later step applied to
the `null` marker raises an `EvaluationError`, because `null` supports no
lookup or iteration. -/
theorem C2_miss_marker_behaviour (p : Pipe) (x : JSON) (rest : Pipeline)
    (hp : p.isInjection = true) (hmiss : Injection.eval p x = .ok .null) :
    Pipeline.eval [p] x = .ok .null
    ∧ Pipeline.eval (p :: rest) x = Pipeline.eval rest .null
    ∧ (∀ q rest2, rest = q :: rest2 → (Pipeline.eval (p :: rest) x).isError = true) := by
  cases p with
  | index n =>
    simp only [Injection.eval] at hmiss
    refine ⟨?_, ?_, ?_⟩
    · simp [Pipeline.eval, hmiss]
    · simp [Pipeline.eval, hmiss]
    · intro q rest2 hr
      subst hr
      simp only [Pipeline.eval, hmiss]
      exact eval_cons_on_null_isError q rest2
  | sub k =>
    simp only [Injection.eval] at hmiss
    refine ⟨?_, ?_, ?_⟩
    · simp [Pipeline.eval, hmiss]
    · simp [Pipeline.eval, hmiss]
    · intro q rest2 hr
      subst hr
      simp only [Pipeline.eval, hmiss]
      exact eval_cons_on_null_isError q rest2
  | memberMap => simp [Pipe.isInjection] at hp
  | childMap => simp [Pipe.isInjection] at hp

/-- Witness for `C2_miss_marker_behaviour`: `Index(1)` misses on a one-element
list; alone it yields `null`, followed by `Index(0)` it raises. -/
theorem C2_miss_marker_behaviour_witness :
    Pipeline.eval [.index 1] (.arr [.arr []]) = .ok .null
    ∧ (Pipeline.eval [.index 1, .index 0] (.arr [.arr []])).isError = true := by
  have h := C2_miss_marker_behaviour (.index 1) (.arr [.arr []]) [.index 0] rfl
    (by simp +decide [Injection.eval, Index.eval, pyListIndex, hasGetitem])
  exact ⟨h.1, h.2.2 (.index 0) [] rfl⟩

/-- Claim C2, counterexample to the claim as stated: the miss produced by
`Index(1)` on the one-element list does not propagate through the remaining
step — the very next step turns it into a (wrapped) `EvaluationError`. -/
theorem C2_miss_becomes_error_counterexample :
    Index.eval 1 (.arr [.arr []]) = .ok .null
    ∧ Pipeline.eval [.index 1, .index 0] (.arr [.arr []])
        = .error (.wrapped (.index 0) .null (.indexNoGetitem .null)) := by
  constructor
  · simp +decide [Index.eval, pyListIndex, hasGetitem]
  · simp +decide [Pipeline.eval, Index.eval, pyListIndex, hasGetitem]

/-- The list comprehension result characterized pointwise: when it succeeds it
has one result per exploded element, each the independent evaluation of the
remaining pipeline on that element. -/
theorem evalList_ok_spec (rest : Pipeline) (l : List JSON) (rs : List JSON)
    (h : Pipeline.evalList rest l = .ok rs) :
    rs.length = l.length
    ∧ ∀ i (hi : i < l.length) (hj : i < rs.length),
        Pipeline.eval rest l[i] = .ok rs[i] := by
  induction l generalizing rs with
  | nil =>
    simp only [Pipeline.evalList] at h
    cases h
    simp
  | cons y ys ih =>
    simp only [Pipeline.evalList] at h
    cases he : Pipeline.eval rest y with
    | error e => rw [he] at h; cases h
    | ok r =>
      rw [he] at h
      cases hes : Pipeline.evalList rest ys with
      | error e => rw [hes] at h; cases h
      | ok rs2 =>
        rw [hes] at h
        cases h
        obtain ⟨hlen, hpt⟩ := ih rs2 hes
        refine ⟨by simp [hlen], ?_⟩
        intro i hi hj
        cases i with
        | zero => simpa using he
        | succ j =>
          simp only [List.getElem_cons_succ]
          exact hpt j (by simpa using hi) (by simpa using hj)

/-- Claim C5: when a surjection step explodes the current value into elements
`e1..ek` and the remaining pipeline evaluates on each of them, the overall
result is returned immediately as the ordered list of the per-element
sub-results — the remaining steps are never applied to the un-exploded
value. -/
theorem C5_surjection_explodes (s : Pipe) (rest : Pipeline) (x : JSON)
    (elems rs : List JSON)
    (hs : s.isSurjection = true)
    (hex : Surjection.eval s x = .ok elems)
    (hall : Pipeline.evalList rest elems = .ok rs) :
    Pipeline.eval (s :: rest) x = .ok (.arr rs)
    ∧ rs.length = elems.length
    ∧ ∀ i (hi : i < elems.length) (hj : i < rs.length),
        Pipeline.eval rest elems[i] = .ok rs[i] := by
  obtain ⟨hlen, hpt⟩ := evalList_ok_spec rest elems rs hall
  refine ⟨?_, hlen, hpt⟩
  cases s with
  | index n => simp [Pipe.isSurjection] at hs
  | sub k => simp [Pipe.isSurjection] at hs
  | memberMap =>
    simp only [Surjection.eval] at hex
    simp [Pipeline.eval, hex, hall]
  | childMap =>
    simp only [Surjection.eval] at hex
    simp [Pipeline.eval, hex, hall]

/-- Witness for `C5_surjection_explodes`: a `MemberMap` explosion followed by
an `Index(0)` step per element. -/
theorem C5_surjection_explodes_witness :
    Pipeline.eval [.memberMap, .index 0] (.arr [.arr [.num 4], .arr [.num 6]])
      = .ok (.arr [.num 4, .num 6]) :=
  (C5_surjection_explodes .memberMap [.index 0] (.arr [.arr [.num 4], .arr [.num 6]])
    [.arr [.num 4], .arr [.num 6]] [.num 4, .num 6] rfl rfl
    (by simp +decide [Pipeline.evalList, Pipeline.eval, Index.eval, pyListIndex, hasGetitem])).1

/-- Induction workhorse for the token invariant: every token an accepting run
of `tokenize` produces has non-empty text, an identifier token starts with a
letter or underscore, and an index token starts with a digit or `-`. -/
theorem tokenize_ok_token_shapes (N : Nat) : ∀ cs : List Char, cs.length ≤ N →
    ∀ ts, tokenize cs = .ok ts → ∀ t ∈ ts,
      t.value ≠ ""
      ∧ (t.type = TokenType.identifier →
          ∃ c cs2, t.value.data = c :: cs2 ∧ (c ∈ ascii_letters ∨ c = '_'))
      ∧ (t.type = TokenType.index →
          ∃ c cs2, t.value.data = c :: cs2 ∧ c ∈ digits_dash) := by
  induction N with
  | zero =>
    intro cs hlen ts h t ht
    have hnil : cs = [] := List.eq_nil_of_length_eq_zero (by omega)
    subst hnil
    simp only [tokenize] at h
    cases h
    simp at ht
  | succ N ih =>
    intro cs hlen ts h t ht
    cases cs with
    | nil =>
      simp only [tokenize] at h
      cases h
      simp at ht
    | cons c rest =>
      simp only [tokenize] at h
      by_cases h1 : c ∈ string_whitespace
      · rw [if_pos h1] at h
        exact ih rest (by simpa using hlen) ts h t ht
      rw [if_neg h1] at h
      by_cases h2 : c = '@'
      · rw [if_pos h2] at h
        cases hrec : tokenize rest with
        | error e => rw [hrec] at h; cases h
        | ok ts2 =>
          rw [hrec] at h
          cases h
          rcases List.mem_cons.mp ht with ht0 | ht2
          · subst ht0
            exact ⟨by decide, fun hty => absurd hty (by decide),
              fun hty => absurd hty (by decide)⟩
          · exact ih rest (by simpa using hlen) ts2 hrec t ht2
      rw [if_neg h2] at h
      by_cases h3 : c ∈ ascii_letters ∨ c = '_'
      · rw [if_pos h3] at h
        cases hrec : tokenize (rest.drop (next_identifier rest).length) with
        | error e => rw [hrec] at h; cases h
        | ok ts2 =>
          rw [hrec] at h
          cases h
          rcases List.mem_cons.mp ht with ht0 | ht2
          · subst ht0
            refine ⟨by simp [Token.identifier, String.ext_iff], ?_,
              fun hty => by simp [Token.identifier] at hty⟩
            intro _
            exact ⟨c, next_identifier rest, rfl, h3⟩
          · exact ih (rest.drop (next_identifier rest).length)
              (by simp only [List.length_drop]; simp at hlen; omega) ts2 hrec t ht2
      rw [if_neg h3] at h
      by_cases h4 : c = '.'
      · rw [if_pos h4] at h
        cases hrec : tokenize rest with
        | error e => rw [hrec] at h; cases h
        | ok ts2 =>
          rw [hrec] at h
          cases h
          rcases List.mem_cons.mp ht with ht0 | ht2
          · subst ht0
            exact ⟨by decide, fun hty => absurd hty (by decide),
              fun hty => absurd hty (by decide)⟩
          · exact ih rest (by simpa using hlen) ts2 hrec t ht2
      rw [if_neg h4] at h
      by_cases h5 : c = '['
      · rw [if_pos h5] at h
        cases hrec : tokenize rest with
        | error e => rw [hrec] at h; cases h
        | ok ts2 =>
          rw [hrec] at h
          cases h
          rcases List.mem_cons.mp ht with ht0 | ht2
          · subst ht0
            exact ⟨by decide, fun hty => absurd hty (by decide),
              fun hty => absurd hty (by decide)⟩
          · exact ih rest (by simpa using hlen) ts2 hrec t ht2
      rw [if_neg h5] at h
      by_cases h6 : c = ']'
      · rw [if_pos h6] at h
        cases hrec : tokenize rest with
        | error e => rw [hrec] at h; cases h
        | ok ts2 =>
          rw [hrec] at h
          cases h
          rcases List.mem_cons.mp ht with ht0 | ht2
          · subst ht0
            exact ⟨by decide, fun hty => absurd hty (by decide),
              fun hty => absurd hty (by decide)⟩
          · exact ih rest (by simpa using hlen) ts2 hrec t ht2
      rw [if_neg h6] at h
      by_cases h7 : c = '*'
      · rw [if_pos h7] at h
        cases hrec : tokenize rest with
        | error e => rw [hrec] at h; cases h
        | ok ts2 =>
          rw [hrec] at h
          cases h
          rcases List.mem_cons.mp ht with ht0 | ht2
          · subst ht0
            exact ⟨by decide, fun hty => absurd hty (by decide),
              fun hty => absurd hty (by decide)⟩
          · exact ih rest (by simpa using hlen) ts2 hrec t ht2
      rw [if_neg h7] at h
      by_cases h8 : c ∈ digits_dash
      · rw [if_pos h8] at h
        cases hrec : tokenize (rest.drop (next_index rest).length) with
        | error e => rw [hrec] at h; cases h
        | ok ts2 =>
          rw [hrec] at h
          cases h
          rcases List.mem_cons.mp ht with ht0 | ht2
          · subst ht0
            refine ⟨by simp [Token.index, String.ext_iff],
              fun hty => by simp [Token.index] at hty, ?_⟩
            intro _
            exact ⟨c, next_index rest, rfl, h8⟩
          · exact ih (rest.drop (next_index rest).length)
              (by simp only [List.length_drop]; simp at hlen; omega) ts2 hrec t ht2
      rw [if_neg h8] at h
      cases h

/-- Claim C9: on every input `tokenize` accepts, every produced token has
non-empty text; an identifier token's text begins with an ASCII letter or
underscore (never zero-length), and an index token's text begins with a digit
or `-`. -/
theorem C9_tokens_nonempty (cs : List Char) (ts : List Token)
    (h : tokenize cs = .ok ts) : ∀ t ∈ ts,
    t.value ≠ ""
    ∧ (t.type = TokenType.identifier →
        ∃ c cs2, t.value.data = c :: cs2 ∧ (c ∈ ascii_letters ∨ c = '_'))
    ∧ (t.type = TokenType.index →
        ∃ c cs2, t.value.data = c :: cs2 ∧ c ∈ digits_dash) :=
  tokenize_ok_token_shapes cs.length cs (le_refl _) ts h

/-- Witness for `C9_tokens_nonempty` on the source `"_a 1"`, which lexes to an
identifier token and an index token. -/
theorem C9_tokens_nonempty_witness :
    (Token.identifier "_a").value ≠ ""
    ∧ ((Token.identifier "_a").type = TokenType.identifier →
        ∃ c cs2, (Token.identifier "_a").value.data = c :: cs2
          ∧ (c ∈ ascii_letters ∨ c = '_'))
    ∧ ((Token.identifier "_a").type = TokenType.index →
        ∃ c cs2, (Token.identifier "_a").value.data = c :: cs2 ∧ c ∈ digits_dash) :=
  C9_tokens_nonempty ['_', 'a', ' ', '1'] [Token.identifier "_a", Token.index "1"]
    (by simp +decide [tokenize, next_identifier, next_index])
    (Token.identifier "_a") (List.mem_cons_self _ _)

/-! ### Decimal round-trip lemmas -/

theorem decDigit_mem_digits (d : Nat) : decDigit d ∈ string_digits := by
  unfold decDigit
  split <;> decide

theorem decDigit_toNat (d : Nat) (h : d < 10) : (decDigit d).toNat = 48 + d := by
  interval_cases d <;> decide

theorem natChars_ne_nil (n : Nat) : natChars n ≠ [] := by
  unfold natChars
  split
  · simp
  · simp

theorem natChars_mem_digits (n : Nat) : ∀ c ∈ natChars n, c ∈ string_digits := by
  induction n using Nat.strong_induction_on with
  | _ n ih =>
    unfold natChars
    split
    · intro c hc
      simp only [List.mem_singleton] at hc
      subst hc
      exact decDigit_mem_digits n
    · intro c hc
      rcases List.mem_append.mp hc with hl | hr
      · exact ih (n / 10) (Nat.div_lt_self (by omega) (by omega)) c hl
      · simp only [List.mem_singleton] at hr
        subst hr
        exact decDigit_mem_digits (n % 10)

theorem digitsVal_append_singleton (l : List Char) (c : Char) :
    digitsVal (l ++ [c]) = 10 * digitsVal l + (c.toNat - 48) := by
  simp [digitsVal, List.foldl_append]

theorem digitsVal_natChars (n : Nat) : digitsVal (natChars n) = n := by
  induction n using Nat.strong_induction_on with
  | _ n ih =>
    unfold natChars
    split
    · simp only [digitsVal, List.foldl]
      rw [decDigit_toNat n (by omega)]
      omega
    · rw [digitsVal_append_singleton, ih (n / 10) (Nat.div_lt_self (by omega) (by omega)),
        decDigit_toNat (n % 10) (Nat.mod_lt n (by omega))]
      omega

theorem dash_not_digit : '-' ∉ string_digits := by decide

theorem pyInt_pyStrInt (n : Int) : pyInt (pyStrInt n) = some n := by
  by_cases hneg : n < 0
  · rw [pyStrInt, if_pos hneg]
    have hall : ((natChars (-n).toNat).all fun x => decide (x ∈ string_digits)) = true := by
      rw [List.all_eq_true]
      intro x hx
      simpa using natChars_mem_digits _ x hx
    simp only [pyInt, if_true]
    rw [if_pos ⟨natChars_ne_nil _, hall⟩]
    rw [digitsVal_natChars]
    congr 1
    omega
  · rw [pyStrInt, if_neg hneg]
    obtain ⟨c, cs, hcons⟩ : ∃ c cs, natChars n.toNat = c :: cs := by
      cases h : natChars n.toNat with
      | nil => exact absurd h (natChars_ne_nil _)
      | cons c cs => exact ⟨c, cs, rfl⟩
    have hcd : c ∈ string_digits := natChars_mem_digits n.toNat c (by rw [hcons]; simp)
    have hall : ((c :: cs).all fun x => decide (x ∈ string_digits)) = true := by
      rw [List.all_eq_true]
      intro x hx
      have := natChars_mem_digits n.toNat x (by rw [hcons]; exact hx)
      simpa using this
    simp only [pyInt, hcons]
    rw [if_neg (by rintro rfl; exact dash_not_digit hcd)]
    rw [if_pos hall]
    rw [← hcons, digitsVal_natChars]
    congr 1
    omega

/-! ### Lexer chunk lemmas -/

theorem identStart_facts (c : Char) (h : c ∈ ascii_letters ∨ c = '_') :
    c ∉ string_whitespace ∧ c ≠ '@' ∧ c ∉ IDENTIFIER_TERMINATORS := by
  rcases h with h | rfl
  · fin_cases h <;> decide
  · decide

theorem numStart_facts (c : Char) (h : c ∈ digits_dash) :
    c ∉ string_whitespace ∧ c ≠ '@' ∧ ¬(c ∈ ascii_letters ∨ c = '_')
      ∧ c ≠ '.' ∧ c ≠ '[' ∧ c ≠ ']' ∧ c ≠ '*' := by
  fin_cases h <;> decide

theorem next_identifier_append (ks cs : List Char)
    (hks : ∀ c ∈ ks, c ∉ IDENTIFIER_TERMINATORS)
    (hcs : ∀ c, cs.head? = some c → c ∈ IDENTIFIER_TERMINATORS) :
    next_identifier (ks ++ cs) = ks := by
  induction ks with
  | nil =>
    cases cs with
    | nil => rfl
    | cons c cs2 =>
      simp only [List.nil_append, next_identifier]
      rw [if_pos (hcs c rfl)]
  | cons k ks2 ih =>
    simp only [List.cons_append, next_identifier, List.append_eq]
    rw [if_neg (hks k (List.mem_cons_self _ _))]
    rw [ih (fun c hc => hks c (List.mem_cons_of_mem _ hc))]

theorem next_index_append (ns cs : List Char)
    (hns : ∀ c ∈ ns, c ∈ digits_dash)
    (hcs : ∀ c, cs.head? = some c → c ∉ digits_dash) :
    next_index (ns ++ cs) = ns := by
  induction ns with
  | nil =>
    cases cs with
    | nil => rfl
    | cons c cs2 =>
      simp only [List.nil_append, next_index]
      rw [if_neg (hcs c rfl)]
  | cons m ns2 ih =>
    simp only [List.cons_append, next_index, List.append_eq]
    rw [if_pos (hns m (List.mem_cons_self _ _))]
    rw [ih (fun c hc => hns c (List.mem_cons_of_mem _ hc))]

theorem tokenize_ws_cons (c : Char) (h : c ∈ string_whitespace) (cs : List Char) :
    tokenize (c :: cs) = tokenize cs := by
  simp only [tokenize]
  rw [if_pos h]

theorem tokenize_at_cons (cs : List Char) :
    tokenize ('@' :: cs) = (Token.root :: ·) <$> tokenize cs := by
  simp only [tokenize]
  rw [if_neg (by decide), if_pos trivial]

theorem tokenize_dot_cons (cs : List Char) :
    tokenize ('.' :: cs) = (Token.sub_op :: ·) <$> tokenize cs := by
  simp only [tokenize]
  rw [if_neg (by decide), if_neg (by decide), if_neg (by decide), if_pos trivial]

theorem tokenize_lbrac_cons (cs : List Char) :
    tokenize ('[' :: cs) = (Token.left_bracket :: ·) <$> tokenize cs := by
  simp only [tokenize]
  rw [if_neg (by decide), if_neg (by decide), if_neg (by decide), if_neg (by decide),
    if_pos trivial]

theorem tokenize_rbrac_cons (cs : List Char) :
    tokenize (']' :: cs) = (Token.right_bracket :: ·) <$> tokenize cs := by
  simp only [tokenize]
  rw [if_neg (by decide), if_neg (by decide), if_neg (by decide), if_neg (by decide),
    if_neg (by decide), if_pos trivial]

theorem tokenize_star_cons (cs : List Char) :
    tokenize ('*' :: cs) = (Token.wildcard :: ·) <$> tokenize cs := by
  simp only [tokenize]
  rw [if_neg (by decide), if_neg (by decide), if_neg (by decide), if_neg (by decide),
    if_neg (by decide), if_neg (by decide), if_pos trivial]

/-- Lexing an identifier chunk: a letter/underscore head followed by
non-terminator characters, with the rest of the input empty or starting at a
terminator, produces one identifier token. -/
theorem tokenize_identifier_chunk (c : Char) (ks cs : List Char)
    (hc : c ∈ ascii_letters ∨ c = '_')
    (hks : ∀ x ∈ ks, x ∉ IDENTIFIER_TERMINATORS)
    (hcs : ∀ x, cs.head? = some x → x ∈ IDENTIFIER_TERMINATORS) :
    tokenize (c :: (ks ++ cs))
      = (Token.identifier (String.mk (c :: ks)) :: ·) <$> tokenize cs := by
  obtain ⟨hw, hat, _⟩ := identStart_facts c hc
  simp only [tokenize]
  rw [if_neg hw, if_neg hat, if_pos hc]
  rw [next_identifier_append ks cs hks hcs, List.drop_left]

/-- Lexing an index chunk: a digit/dash head followed by digit/dash characters,
with the rest of the input empty or starting outside that class, produces one
index token. -/
theorem tokenize_index_chunk (c : Char) (ns cs : List Char)
    (hc : c ∈ digits_dash)
    (hns : ∀ x ∈ ns, x ∈ digits_dash)
    (hcs : ∀ x, cs.head? = some x → x ∉ digits_dash) :
    tokenize (c :: (ns ++ cs))
      = (Token.index (String.mk (c :: ns)) :: ·) <$> tokenize cs := by
  obtain ⟨hw, hat, hid, hdot, hlb, hrb, hstar⟩ := numStart_facts c hc
  simp only [tokenize]
  rw [if_neg hw, if_neg hat, if_neg hid, if_neg hdot, if_neg hlb, if_neg hrb, if_neg hstar,
    if_pos hc]
  rw [next_index_append ns cs hns hcs, List.drop_left]

theorem except_map_map {ε α β γ : Type} (f : β → γ) (g : α → β) (e : Except ε α) :
    f <$> (g <$> e) = (fun x => f (g x)) <$> e := by
  cases e <;> rfl

/-- The shape of a formatted index: a leading digit or `-`, followed by digits
(all in the index-token character class). -/
theorem pyStrInt_data_shape (n : Int) :
    ∃ c ns, (pyStrInt n).data = c :: ns ∧ c ∈ digits_dash ∧ ∀ x ∈ ns, x ∈ digits_dash := by
  by_cases hneg : n < 0
  · rw [pyStrInt, if_pos hneg]
    refine ⟨'-', natChars (-n).toNat, rfl, by decide, ?_⟩
    intro x hx
    exact List.mem_append.mpr (Or.inl (natChars_mem_digits _ x hx))
  · rw [pyStrInt, if_neg hneg]
    obtain ⟨c, cs, hcons⟩ : ∃ c cs, natChars n.toNat = c :: cs := by
      cases h : natChars n.toNat with
      | nil => exact absurd h (natChars_ne_nil _)
      | cons c cs => exact ⟨c, cs, rfl⟩
    refine ⟨c, cs, by simp [hcons], ?_, ?_⟩
    · exact List.mem_append.mpr (Or.inl (natChars_mem_digits n.toNat c (by rw [hcons]; simp)))
    · intro x hx
      refine List.mem_append.mpr (Or.inl (natChars_mem_digits n.toNat x ?_))
      rw [hcons]
      exact List.mem_cons_of_mem _ hx

/-- Splitting a grammar-conforming key into its head and tail character
classes. -/
theorem goodKey_shape (k : String) (h : goodKey k = true) :
    ∃ kc ks, k.data = kc :: ks ∧ (kc ∈ ascii_letters ∨ kc = '_')
      ∧ ∀ x ∈ ks, x ∉ IDENTIFIER_TERMINATORS := by
  unfold goodKey at h
  cases hk : k.data with
  | nil => rw [hk] at h; cases h
  | cons kc ks =>
    rw [hk] at h
    simp only [Bool.and_eq_true, Bool.or_eq_true, beq_iff_eq, List.all_eq_true,
      Bool.not_eq_true', decide_eq_true_eq, decide_eq_false_iff_not] at h
    refine ⟨kc, ks, rfl, ?_, ?_⟩
    · rcases h.1 with h1 | h1
      · exact Or.inl (by simpa using h1)
      · exact Or.inr h1
    · intro x hx
      simpa using h.2 x hx

/-- Tokenizing the formatter's output for a well-formed term, followed by any
continuation that starts with `[` or `.` (or is empty), yields the root token,
the term's operation tokens, and then the continuation's tokens. -/
theorem tokenize_format_append (t : QueryTerm) :
    wfC4 t = true →
    ∀ cs : List Char, (∀ x, cs.head? = some x → x = '[' ∨ x = '.') →
    tokenize ((format_jsque_expression t).data ++ cs)
      = (fun ts => Token.root :: (opsOf t ++ ts)) <$> tokenize cs := by
  induction t with
  | root =>
    intro _ cs _
    show tokenize ('@' :: cs) = _
    rw [tokenize_at_cons]
    rfl
  | index n => intro hwf; simp [wfC4] at hwf
  | identifier k => intro hwf; simp [wfC4] at hwf
  | idx_op s i ihs ihi =>
    cases i with
    | index n =>
      intro hwf cs hcs
      have hwfs : wfC4 s = true := by simpa [wfC4] using hwf
      have hdata : (format_jsque_expression (.idx_op s (.index n))).data ++ cs
          = (format_jsque_expression s).data ++ ('[' :: ((pyStrInt n).data ++ (']' :: cs))) := by
        simp [format_jsque_expression, QueryTerm.itemNumber, String.data_append,
          List.append_assoc]
      rw [hdata]
      rw [ihs hwfs ('[' :: ((pyStrInt n).data ++ (']' :: cs)))
        (by intro x hx; injection hx with h; exact Or.inl h.symm)]
      rw [tokenize_lbrac_cons]
      obtain ⟨c, ns, hshape, hcd, hnsd⟩ := pyStrInt_data_shape n
      rw [hshape]
      simp only [List.cons_append]
      rw [tokenize_index_chunk c ns (']' :: cs) hcd hnsd
        (by intro x hx; injection hx with h; rw [← h]; decide)]
      rw [tokenize_rbrac_cons]
      rw [except_map_map, except_map_map, except_map_map]
      congr 1
      funext ts
      rw [← hshape]
      have heta : String.mk ((pyStrInt n).data) = pyStrInt n := rfl
      rw [heta]
      simp [opsOf, QueryTerm.itemNumber, List.append_assoc]
    | root => intro hwf; simp [wfC4] at hwf
    | identifier k => intro hwf; simp [wfC4] at hwf
    | idx_op a b => intro hwf; simp [wfC4] at hwf
    | mmap_op a => intro hwf; simp [wfC4] at hwf
    | sub_op a b => intro hwf; simp [wfC4] at hwf
    | cmap_op a => intro hwf; simp [wfC4] at hwf
  | mmap_op s ihs =>
    intro hwf cs hcs
    have hwfs : wfC4 s = true := by simpa [wfC4] using hwf
    have hdata : (format_jsque_expression (.mmap_op s)).data ++ cs
        = (format_jsque_expression s).data ++ ('[' :: '*' :: ']' :: cs) := by
      simp [format_jsque_expression, String.data_append, List.append_assoc]
    rw [hdata]
    rw [ihs hwfs ('[' :: '*' :: ']' :: cs)
      (by intro x hx; injection hx with h; exact Or.inl h.symm)]
    rw [tokenize_lbrac_cons, tokenize_star_cons, tokenize_rbrac_cons]
    rw [except_map_map, except_map_map, except_map_map]
    congr 1
    funext ts
    simp [opsOf, List.append_assoc]
  | sub_op p c ihp ihc =>
    cases c with
    | identifier k =>
      intro hwf cs hcs
      have hwfp : wfC4 p = true := by
        have := hwf
        simp only [wfC4, Bool.and_eq_true] at this
        exact this.1
      have hgood : goodKey k = true := by
        have := hwf
        simp only [wfC4, Bool.and_eq_true] at this
        exact this.2
      obtain ⟨kc, ks, hk, hkc, hks⟩ := goodKey_shape k hgood
      have hdata : (format_jsque_expression (.sub_op p (.identifier k))).data ++ cs
          = (format_jsque_expression p).data ++ ('.' :: (k.data ++ cs)) := by
        simp [format_jsque_expression, QueryTerm.childKey, String.data_append,
          List.append_assoc]
      rw [hdata]
      rw [ihp hwfp ('.' :: (k.data ++ cs))
        (by intro x hx; injection hx with h; exact Or.inr h.symm)]
      rw [tokenize_dot_cons]
      rw [hk]
      simp only [List.cons_append]
      rw [tokenize_identifier_chunk kc ks cs hkc hks
        (by intro x hx
            rcases hcs x hx with h | h <;> rw [h] <;> decide)]
      rw [except_map_map, except_map_map]
      congr 1
      funext ts
      rw [← hk]
      have heta : String.mk k.data = k := rfl
      rw [heta]
      simp [opsOf, QueryTerm.childKey, List.append_assoc]
    | root => intro hwf; simp [wfC4] at hwf
    | index n => intro hwf; simp [wfC4] at hwf
    | idx_op a b => intro hwf; simp [wfC4] at hwf
    | mmap_op a => intro hwf; simp [wfC4] at hwf
    | sub_op a b => intro hwf; simp [wfC4] at hwf
    | cmap_op a => intro hwf; simp [wfC4] at hwf
  | cmap_op p ihp =>
    intro hwf cs hcs
    have hwfp : wfC4 p = true := by simpa [wfC4] using hwf
    have hdata : (format_jsque_expression (.cmap_op p)).data ++ cs
        = (format_jsque_expression p).data ++ ('.' :: '*' :: cs) := by
      simp [format_jsque_expression, String.data_append, List.append_assoc]
    rw [hdata]
    rw [ihp hwfp ('.' :: '*' :: cs)
      (by intro x hx; injection hx with h; exact Or.inr h.symm)]
    rw [tokenize_dot_cons, tokenize_star_cons]
    rw [except_map_map, except_map_map]
    congr 1
    funext ts
    simp [opsOf, List.append_assoc]

/-- Tokenizing exactly the formatter's output for a well-formed term. -/
theorem tokenize_format (t : QueryTerm) (hwf : wfC4 t = true) :
    tokenize (format_jsque_expression t).data = .ok (Token.root :: opsOf t) := by
  have h := tokenize_format_append t hwf [] (by intro x hx; simp at hx)
  rw [List.append_nil] at h
  rw [h]
  simp [tokenize]

/-- The parser loop consumes a well-formed term's operation tokens by grafting
the term onto the current accumulator, left-associatively. -/
theorem parseOps_opsOf (t : QueryTerm) :
    wfC4 t = true →
    ∀ (e : QueryTerm) (ts : List Token),
    parseOps e (opsOf t ++ ts) = parseOps (graft e t) ts := by
  induction t with
  | root => intro _ e ts; simp [opsOf, graft]
  | index n => intro hwf; simp [wfC4] at hwf
  | identifier k => intro hwf; simp [wfC4] at hwf
  | idx_op s i ihs ihi =>
    cases i with
    | index n =>
      intro hwf e ts
      have hwfs : wfC4 s = true := by simpa [wfC4] using hwf
      show parseOps e ((opsOf s
        ++ [Token.left_bracket, Token.index (pyStrInt n), Token.right_bracket]) ++ ts) = _
      rw [List.append_assoc, ihs hwfs]
      simp only [List.cons_append, List.nil_append, parseOps, Token.left_bracket, Token.index,
        Token.right_bracket]
      rw [pyInt_pyStrInt]
      simp [graft]
    | root => intro hwf; simp [wfC4] at hwf
    | identifier k => intro hwf; simp [wfC4] at hwf
    | idx_op a b => intro hwf; simp [wfC4] at hwf
    | mmap_op a => intro hwf; simp [wfC4] at hwf
    | sub_op a b => intro hwf; simp [wfC4] at hwf
    | cmap_op a => intro hwf; simp [wfC4] at hwf
  | mmap_op s ihs =>
    intro hwf e ts
    have hwfs : wfC4 s = true := by simpa [wfC4] using hwf
    show parseOps e ((opsOf s ++ [Token.left_bracket, Token.wildcard, Token.right_bracket])
      ++ ts) = _
    rw [List.append_assoc, ihs hwfs]
    simp [parseOps, Token.left_bracket, Token.wildcard, Token.right_bracket, graft]
  | sub_op p c ihp ihc =>
    cases c with
    | identifier k =>
      intro hwf e ts
      have hwfp : wfC4 p = true := by
        have := hwf
        simp only [wfC4, Bool.and_eq_true] at this
        exact this.1
      show parseOps e ((opsOf p ++ [Token.sub_op, Token.identifier k]) ++ ts) = _
      rw [List.append_assoc, ihp hwfp]
      simp [parseOps, Token.sub_op, Token.identifier, graft]
    | root => intro hwf; simp [wfC4] at hwf
    | index n => intro hwf; simp [wfC4] at hwf
    | idx_op a b => intro hwf; simp [wfC4] at hwf
    | mmap_op a => intro hwf; simp [wfC4] at hwf
    | sub_op a b => intro hwf; simp [wfC4] at hwf
    | cmap_op a => intro hwf; simp [wfC4] at hwf
  | cmap_op p ihp =>
    intro hwf e ts
    have hwfp : wfC4 p = true := by simpa [wfC4] using hwf
    show parseOps e ((opsOf p ++ [Token.sub_op, Token.wildcard]) ++ ts) = _
    rw [List.append_assoc, ihp hwfp]
    simp [parseOps, Token.sub_op, Token.wildcard, graft]

/-- Grafting onto the `root` accumulator is the identity. -/
theorem graft_root (t : QueryTerm) : graft .root t = t := by
  induction t <;> simp [graft, *]

/-- Claim C4, amended: for every well-formed AST built from the four operators
over root/index/identifier leaves whose identifier keys match the surface
grammar (non-empty, starting with a letter or underscore, free of `.`, `[` and
whitespace; index leaves arbitrary integers), parsing the formatted term
returns the term itself. -/
theorem C4_parse_format_roundtrip (t : QueryTerm) (hwf : wfC4 t = true) :
    parse_jsque_expression (format_jsque_expression t) = .ok t := by
  unfold parse_jsque_expression
  rw [tokenize_format t hwf]
  simp only [Token.root, if_true]
  have h := parseOps_opsOf t hwf .root []
  rw [List.append_nil] at h
  rw [h, graft_root]
  rfl

/-- Witness for `C4_parse_format_roundtrip` at `@.a[-2]`. -/
theorem C4_parse_format_roundtrip_witness :
    parse_jsque_expression
        (format_jsque_expression (.idx_op (.sub_op .root (.identifier "a")) (.index (-2))))
      = .ok (.idx_op (.sub_op .root (.identifier "a")) (.index (-2))) :=
  C4_parse_format_roundtrip (.idx_op (.sub_op .root (.identifier "a")) (.index (-2)))
    (by decide)

/-- Claim C4, counterexample to the claim over arbitrary identifier leaves: the
key `"a.b"` formats to `"@.a.b"`, which parses back to a chain of two
single-letter subscriptions, not to the original term. -/
theorem C4_arbitrary_identifier_counterexample :
    format_jsque_expression (.sub_op .root (.identifier "a.b")) = "@.a.b"
    ∧ parse_jsque_expression "@.a.b"
        = .ok (.sub_op (.sub_op .root (.identifier "a")) (.identifier "b"))
    ∧ QueryTerm.sub_op .root (.identifier "a.b")
        ≠ .sub_op (.sub_op .root (.identifier "a")) (.identifier "b") := by
  refine ⟨rfl, ?_, by decide⟩
  simp +decide [parse_jsque_expression, tokenize, next_identifier, parseOps,
    Token.root, Token.sub_op, Token.identifier]
